import Mathlib

set_option linter.unusedVariables false

/-!
Shallow embedding of two adapter modules of the holoviews repository:

* `holoviews/core/data/dask.py` — the `DaskInterface` dataframe backend
  (`range`, `sort`, `select_mask`, `select`, `groupby`, `aggregate`,
  `unpack_scalar`, `add_dimension`);
* `holoviews/plotting/bokeh/raster.py` — the bokeh raster adapters
  (`RasterPlot.get_data`, `RGBPlot.get_data`, `HeatMapPlot.get_data`).

A dask/pandas dataframe is modelled column-major, as pandas does: an index
(here only its length, `nrows`) together with named columns.  A dask Series
is a `List α`; boolean masks are `List Bool`.  Fallible Python code is
modelled in `Except String`.
-/

/-- A dataframe: the row count of its index plus its named columns.
Well-formed frames have every column of length `nrows`; pandas also admits
frames with rows but no columns (e.g. `pd.DataFrame(index=[0])`). -/
structure DFrame (α : Type) where
  nrows : Nat
  columns : List (String × List α)
deriving DecidableEq

namespace DFrame

/-- The list of column names (`df.columns` in pandas). -/
def colNames (df : DFrame α) : List String :=
  df.columns.map Prod.fst

/-- `df[name]`: the column's values (a Series).  A missing key, a
`KeyError` in Python, is totalised to the empty Series; every theorem
using it supplies the column. -/
def series (df : DFrame α) (name : String) : List α :=
  match df.columns.find? (fun c => c.1 == name) with
  | some c => c.2
  | none => []

/-- The value at row `i` of column `name` (`df[name].iloc[i]`). -/
def cell [Inhabited α] (df : DFrame α) (name : String) (i : Nat) : α :=
  (df.series name).getD i default

/-- Restrict a Series to the rows where the mask is `True`. -/
def boolFilter (mask : List Bool) (vs : List α) : List α :=
  (vs.zip mask).filterMap (fun p => if p.2 then some p.1 else none)

/-- `df[mask]`: the frame restricted to the rows where the boolean mask
holds. -/
def filterMask (df : DFrame α) (mask : List Bool) : DFrame α :=
  ⟨mask.count true, df.columns.map (fun c => (c.1, boolFilter mask c.2))⟩

/-- `df.iat[i, j]`: positional lookup, `none` for the `IndexError` cases. -/
def iat (df : DFrame α) (i j : Nat) : Option α :=
  match df.columns.get? j with
  | some c => c.2.get? i
  | none => none

/-- `df.assign(name=v)` with a scalar `v`: a new column holding `v` in
every row, appended after the existing columns. -/
def assign (df : DFrame α) (name : String) (v : α) : DFrame α :=
  ⟨df.nrows, df.columns ++ [(name, List.replicate df.nrows v)]⟩

end DFrame

/-- A holoviews dataset over a dask dataframe: key dimensions, value
dimensions and the wrapped data. -/
structure DDataset (α : Type) where
  kdims : List String
  vdims : List String
  data : DFrame α
deriving DecidableEq

/-!
## `DaskInterface.sort`

```python
@classmethod
def sort(cls, columns, by=[]):
    columns.warning('Dask dataframes do not support sorting')
    return columns.data
```

The emitted warning is returned alongside the (unchanged) data.
-/

def DaskInterface.sort (columns : DDataset α) (by_ : List String) :
    List String × DFrame α :=
  (["Dask dataframes do not support sorting"], columns.data)

/-!
## `DaskInterface.unpack_scalar`

```python
@classmethod
def unpack_scalar(cls, columns, data):
    if len(data.columns) > 1 or len(data) != 1:
        return data
    if isinstance(data, dd.DataFrame):
        data = data.compute()
    return data.iat[0,0]
```

`compute` only materialises the dask frame and is the identity on the
values; `iat[0,0]` raises `IndexError` on a frame with no columns.
-/

def DaskInterface.unpack_scalar (data : DFrame α) :
    Except String (α ⊕ DFrame α) :=
  if data.columns.length > 1 ∨ data.nrows ≠ 1 then
    .ok (.inr data)
  else
    match data.iat 0 0 with
    | some v => .ok (.inl v)
    | none => .error "IndexError"

/-!
## `DaskInterface.add_dimension`

```python
@classmethod
def add_dimension(cls, columns, dimension, dim_pos, values, vdim):
    data = columns.data
    if dimension.name not in data.columns:
        if not np.isscalar(values):
            err = 'Dask dataframe does not support assigning non-scalar value.'
            raise NotImplementedError(err)
        data = data.assign(**{dimension.name: values})
    return data
```
-/

/-- A Python value as tested by `np.isscalar`: a scalar, or a non-scalar
(array/list-like) collection of values. -/
inductive PyValues (α : Type) where
  | scalar (v : α)
  | array (vs : List α)
deriving DecidableEq

def DaskInterface.add_dimension (columns : DDataset α) (dimName : String)
    (dimPos : Nat) (values : PyValues α) : Except String (DFrame α) :=
  if dimName ∈ columns.data.colNames then
    .ok columns.data
  else
    match values with
    | .array _ =>
        .error "Dask dataframe does not support assigning non-scalar value."
    | .scalar v => .ok (columns.data.assign dimName v)

/-!
## `DaskInterface.range`

```python
@classmethod
def range(cls, columns, dimension):
    column = columns.data[columns.get_dimension(dimension).name]
    if column.dtype.kind == 'O':
        column = np.sort(column[column.notnull()].compute())
        return column[0], column[-1]
    else:
        return (column.min().compute(), column.max().compute())
```

A column is its dtype flag (object or not) plus its entries, `none`
standing for a null (`notnull` false, skipped by `min`/`max`).  `np.sort`
is modelled by an executable sort; `column[0]`/`column[-1]` raise
`IndexError` on an empty array (`none`), and `min`/`max` of an empty
series give a null (`none`).
-/

/-- A dataframe column together with its dtype kind flag. -/
structure DColumn (α : Type) where
  objectDtype : Bool
  vals : List (Option α)

/-- `series.min()`: the least non-null entry, skipping nulls as pandas
does. -/
def seriesMin [LinearOrder α] (vs : List (Option α)) : Option α :=
  (vs.filterMap id).min?

/-- `series.max()`: the greatest non-null entry. -/
def seriesMax [LinearOrder α] (vs : List (Option α)) : Option α :=
  (vs.filterMap id).max?

def DaskInterface.range [LinearOrder α] (column : DColumn α) :
    Option (α × α) :=
  if column.objectDtype then
    let sorted := List.insertionSort (· ≤ ·) (column.vals.filterMap id)
    match sorted.head?, sorted.getLast? with
    | some h, some l => some (h, l)
    | _, _ => none
  else
    match seriesMin column.vals, seriesMax column.vals with
    | some mn, some mx => some (mn, mx)
    | _, _ => none

/-!
## `DaskInterface.select_mask` and `DaskInterface.select`

```python
@classmethod
def select_mask(cls, dataset, selection):
    select_mask = None
    for dim, k in selection.items():
        if isinstance(k, tuple):
            k = slice(*k)
        masks = []
        series = dataset.data[dim]
        if isinstance(k, slice):
            if k.start is not None:
                masks.append(k.start <= series)
            if k.stop is not None:
                masks.append(series < k.stop)
        elif isinstance(k, (set, list)):
            iter_slc = None
            for ik in k:
                mask = series == ik
                if iter_slc is None:
                    iter_slc = mask
                else:
                    iter_slc |= mask
            masks.append(iter_slc)
        elif callable(k):
            masks.append(k(series))
        else:
            masks.append(series == k)
        for mask in masks:
            if select_mask:
                select_mask &= mask
            else:
                select_mask = mask
    return select_mask
```

A per-dimension selection value: a tuple `(lo, hi)` and a slice both
become `srange` (the tuple is converted by `slice(*k)`), a set or list
becomes `sset`, a callable `sfun`, and any other literal `slit`.

`if select_mask:` asks for the truth value of `select_mask`: `None` is
falsy, but a pandas/dask boolean Series raises on `bool()` ("the truth
value of a Series is ambiguous"), which the embedding records as an
`Except.error`.
-/

abbrev Mask := List Bool

inductive SelVal (α : Type) where
  | srange (start stop : Option α)
  | sset (ks : List α)
  | sfun (f : α → Bool)
  | slit (k : α)

def maskAnd (a b : Mask) : Mask := List.zipWith and a b

def maskOr (a b : Mask) : Mask := List.zipWith or a b

/-- Truthiness of the accumulator in `if select_mask:`.  `None` is falsy;
taking `bool()` of a Series raises. -/
def seriesTruth : Option Mask → Except String Bool
  | none => .ok false
  | some _ => .error "truth value of a Series is ambiguous"

/-- `select_mask &= mask` (only reachable were the accumulator truthy). -/
def maskAndOpt : Option Mask → Option Mask → Option Mask
  | some a, some b => some (maskAnd a b)
  | _, _ => none

/-- The inner `for mask in masks:` loop combining per-dimension masks into
the accumulator. -/
def combineMasks (acc : Option Mask) : List (Option Mask) → Except String (Option Mask)
  | [] => .ok acc
  | m :: rest =>
    match seriesTruth acc with
    | .error e => .error e
    | .ok true => combineMasks (maskAndOpt acc m) rest
    | .ok false => combineMasks m rest

/-- The `masks` list built for one dimension's selection value.  For an
empty set/list the accumulated `iter_slc` stays `None` and `None` is
appended, hence the `Option`. -/
def dimMasks [LinearOrder α] (series : List α) : SelVal α → List (Option Mask)
  | .srange lo hi =>
      (match lo with
       | some l => [some (series.map (fun v => decide (l ≤ v)))]
       | none => []) ++
      (match hi with
       | some h => [some (series.map (fun v => decide (v < h)))]
       | none => [])
  | .sset ks =>
      [ks.foldl (fun acc ik =>
          match acc with
          | none => some (series.map (fun v => decide (v = ik)))
          | some m => some (maskOr m (series.map (fun v => decide (v = ik))))) none]
  | .sfun f => [some (series.map f)]
  | .slit k => [some (series.map (fun v => decide (v = k)))]

/-- The outer `for dim, k in selection.items():` loop. -/
def selectMaskLoop [LinearOrder α] (df : DFrame α) (acc : Option Mask) :
    List (String × SelVal α) → Except String (Option Mask)
  | [] => .ok acc
  | (dim, k) :: rest =>
    match combineMasks acc (dimMasks (df.series dim) k) with
    | .error e => .error e
    | .ok acc2 => selectMaskLoop df acc2 rest

def DaskInterface.select_mask [LinearOrder α] (dataset : DDataset α)
    (selection : List (String × SelVal α)) : Except String (Option Mask) :=
  selectMaskLoop dataset.data none selection

/-!
```python
@classmethod
def select(cls, columns, selection_mask=None, **selection):
    df = columns.data
    if selection_mask is not None:
        print selection_mask
        return df[selection_mask]
    selection_mask = cls.select_mask(columns, selection)
    indexed = cls.indexed(columns, selection)
    df = df if selection_mask is None else df[selection_mask]
    if indexed and len(df) == 1:
        return df[columns.vdims[0].name].compute().iloc[0]
    return df
```

`print selection_mask` writes the mask to stdout and does not change the
returned value.  `cls.indexed(columns, selection)` lives in
`interface.py`, outside this fragment; it is passed in as the boolean
`indexed`. -/

def DaskInterface.select [LinearOrder α] (columns : DDataset α)
    (selectionMask : Option Mask) (selection : List (String × SelVal α))
    (indexed : Bool) : Except String (DFrame α ⊕ α) :=
  let df := columns.data
  match selectionMask with
  | some m => .ok (.inl (df.filterMask m))
  | none =>
    match DaskInterface.select_mask columns selection with
    | .error e => .error e
    | .ok mask =>
      let df2 := match mask with
                 | none => df
                 | some m => df.filterMask m
      if indexed ∧ df2.nrows = 1 then
        match columns.vdims with
        | [] => .error "IndexError"
        | v0 :: _ =>
          match (df2.series v0).get? 0 with
          | some x => .ok (.inr x)
          | none => .error "IndexError"
      else .ok (.inl df2)

/-- The selection semantics the claim describes: a row is kept exactly
when it satisfies the conjunction of all per-dimension constraints, where
`(lo, hi)` selects `lo <= v < hi`, a set or list selects membership, a
callable selects the rows on which it returns true, and any other value
selects equality. -/
def satisfiesSel [LinearOrder α] (v : α) : SelVal α → Bool
  | .srange lo hi =>
      (match lo with | some l => decide (l ≤ v) | none => true) &&
      (match hi with | some h => decide (v < h) | none => true)
  | .sset ks => ks.any (fun k => decide (v = k))
  | .sfun f => f v
  | .slit k => decide (v = k)

/-- The mask the claim describes: per row, the conjunction over all
constraints of the selection. -/
def specSelectMask [Inhabited α] [LinearOrder α] (dataset : DDataset α)
    (selection : List (String × SelVal α)) : Mask :=
  (List.range dataset.data.nrows).map (fun i =>
    selection.all (fun s => satisfiesSel (dataset.data.cell s.1 i) s.2))

/-!
## `DaskInterface.groupby`

```python
@classmethod
def groupby(cls, columns, dimensions, container_type, group_type, **kwargs):
    index_dims = [columns.get_dimension(d) for d in dimensions]
    element_dims = [kdim for kdim in columns.kdims
                    if kdim not in index_dims]

    group_kwargs = {}
    if group_type != 'raw' and issubclass(group_type, Element):
        group_kwargs = dict(util.get_param_values(columns),
                            kdims=element_dims)
    group_kwargs.update(kwargs)

    groupby = columns.data.groupby(dimensions)
    indices = columns.data[dimensions].compute().values
    coords = list(util.unique_iterator((tuple(ind) for ind in indices)))
    data = []
    for coord in coords:
        if any(isinstance(c, float) and np.isnan(c) for c in coord):
            continue
        if len(coord) == 1:
            coord = coord[0]
        group = group_type(groupby.get_group(coord), **group_kwargs)
        data.append((coord, group))
    if issubclass(container_type, NdMapping):
        with item_check(False):
            return container_type(data, kdims=index_dims)
    else:
        return container_type(data)
```

Cell values are drawn from `Val`, a Python value that is an integer, a
string, or the float NaN.  `util.unique_iterator` (from `core/util.py`,
outside this fragment) yields the first occurrence of each distinct item
in order; `groupby.get_group(coord)` returns the rows whose grouping
columns equal the coordinate (for a single grouping dimension the key is
the bare scalar, `coord[0]`, selecting the same rows as the 1-tuple).
The container and group types are abstracted to the two flags the code
branches on: whether `container_type` is an `NdMapping` (then it receives
`kdims=index_dims`) and whether `group_type` is an `Element` subclass
(then each group receives `kdims=element_dims`).
-/

inductive Val where
  | vInt (i : Int)
  | vStr (s : String)
  | vNaN
deriving DecidableEq

instance : Inhabited Val := ⟨Val.vNaN⟩

/-- `isinstance(c, float) and np.isnan(c)`: only the float NaN value
satisfies it. -/
def Val.isFloatNaN : Val → Bool
  | .vNaN => true
  | _ => false

/-- `util.unique_iterator`: the first occurrence of each distinct item,
in order of first appearance. -/
def uniqueIterator [DecidableEq β] : List β → List β
  | [] => []
  | x :: xs =>
    x :: uniqueIterator (xs.filter (fun y => decide (y ≠ x)))
termination_by l => l.length
decreasing_by
  simpa using Nat.lt_succ_of_le (List.length_filter_le _ xs)

/-- Index of the first occurrence of `a` in `l` (length of `l` when
absent). -/
def firstIdx [DecidableEq β] : List β → β → Nat
  | [], _ => 0
  | x :: xs, a => if x = a then 0 else firstIdx xs a + 1

/-- A group produced by `groupby`: the `kdims` passed to the group
constructor (only for `Element` group types) and its rows. -/
structure DGroup where
  kdims : Option (List String)
  data : DFrame Val
deriving DecidableEq

/-- The returned container: the `kdims` passed to it (only for
`NdMapping` containers) and the `(coordinate, group)` entries. -/
structure GroupedContainer where
  kdims : Option (List String)
  entries : List (List Val × DGroup)
deriving DecidableEq

/-- The row of grouping-column values at index `i`
(`columns.data[dimensions]` row `i`). -/
def coordRow (df : DFrame Val) (dims : List String) (i : Nat) : List Val :=
  dims.map (fun d => df.cell d i)

/-- The boolean mask of the rows whose grouping columns equal `coord`
(the rows `groupby.get_group(coord)` returns, in data order). -/
def coordMask (df : DFrame Val) (dims : List String) (coord : List Val) : Mask :=
  (List.range df.nrows).map (fun i => decide (coordRow df dims i = coord))

def DaskInterface.groupby (columns : DDataset Val) (dimensions : List String)
    (containerIsNdMapping : Bool) (groupIsElement : Bool) : GroupedContainer :=
  let index_dims := dimensions
  let element_dims := columns.kdims.filter (fun k => decide (k ∉ index_dims))
  let indices := (List.range columns.data.nrows).map (coordRow columns.data dimensions)
  let coords := uniqueIterator indices
  let entries := coords.filterMap (fun coord =>
    if coord.any Val.isFloatNaN then none
    else some (coord,
      ⟨if groupIsElement then some element_dims else none,
       columns.data.filterMask (coordMask columns.data dimensions coord)⟩))
  ⟨if containerIsNdMapping then some index_dims else none, entries⟩

/-!
## `DaskInterface.aggregate`

```python
@classmethod
def aggregate(cls, columns, dimensions, function, **kwargs):
    data = columns.data
    cols = [d.name for d in columns.kdims if d in dimensions]
    vdims = columns.dimensions('value', True)
    dtypes = data.dtypes
    numeric = [c for c, dtype in zip(dtypes.index, dtypes.values)
               if dtype.kind in 'iufc' and c in vdims]
    reindexed = data[cols+numeric]

    inbuilts = {'amin': 'min', 'amax': 'max', 'mean': 'mean',
                'std': 'std', 'sum': 'sum', 'var': 'var'}
    if len(dimensions):
        groups = reindexed.groupby(cols, sort=False)
        if (hasattr(function, 'func_name') and function.func_name in inbuilts):
            agg = getattr(groups, inbuilts[function.func_name])()
        else:
            agg = groups.apply(function, axis=1)
        return agg.reset_index()
    else:
        if (hasattr(function, 'func_name') and function.func_name in inbuilts):
            agg = getattr(reindexed, inbuilts[function.func_name])()
        else:
            raise NotImplementedError
        return pd.DataFrame(agg.compute()).T

```

Only the structure of the computation is modelled: which columns the
aggregation runs over (`reindexed = data[cols+numeric]`, recorded as the
key columns and the value columns it selects) and which dask reduction is
dispatched.  The dataset is its column dtypes (name and numpy dtype kind
character, in column order), its kdims and its vdims; the aggregation
function is its `func_name` attribute when it has one.
-/

structure AggDataset where
  dtypes : List (String × Char)
  kdims : List String
  vdims : List String
deriving DecidableEq

/-- The outcome of `aggregate`: whether it grouped (`len(dimensions)`
nonzero), the key columns and numeric value columns of `reindexed`, and
the name of the dask method dispatched (`"apply"` for a non-inbuilt
function on groups). -/
structure AggOutcome where
  grouped : Bool
  keyCols : List String
  valueCols : List String
  how : String
deriving DecidableEq

def inbuilts : List (String × String) :=
  [("amin", "min"), ("amax", "max"), ("mean", "mean"),
   ("std", "std"), ("sum", "sum"), ("var", "var")]

def DaskInterface.aggregate (columns : AggDataset) (dimensions : List String)
    (funcName : Option String) : Except String AggOutcome :=
  let cols := columns.kdims.filter (fun d => decide (d ∈ dimensions))
  let vdims := columns.vdims
  let numeric := (columns.dtypes.filter (fun c =>
      c.2 ∈ (['i', 'u', 'f', 'c'] : List Char) && decide (c.1 ∈ vdims))).map Prod.fst
  let inbuilt := funcName.bind (fun n => (inbuilts.find? (fun p => p.1 == n)).map Prod.snd)
  if dimensions.length ≠ 0 then
    match inbuilt with
    | some how => .ok ⟨true, cols, numeric, how⟩
    | none => .ok ⟨true, cols, numeric, "apply"⟩
  else
    match inbuilt with
    | some how => .ok ⟨false, cols, numeric, how⟩
    | none => .error "NotImplementedError"

/-- The claim's description of the columns aggregation is restricted to:
the numeric (integer, unsigned, float, complex dtype kind) value columns
of the dataset. -/
def specNumericCols (columns : AggDataset) : List String :=
  (columns.dtypes.filter (fun c =>
    (c.2 = 'i' ∨ c.2 = 'u' ∨ c.2 = 'f' ∨ c.2 = 'c') ∧ c.1 ∈ columns.vdims)).map Prod.fst

/-- The claim's condition on the aggregation function: its name is one of
`amin`, `amax`, `mean`, `std`, `sum`, `var`. -/
def specIsInbuilt (funcName : Option String) : Bool :=
  match funcName with
  | some n => n ∈ ["amin", "amax", "mean", "std", "sum", "var"]
  | none => false

/-!
## `RasterPlot.get_data` and `RGBPlot.get_data` (bokeh raster adapters)

```python
def get_data(self, element, ranges, style):          # RasterPlot
    mapping = dict(image='image', x='x', y='y', dw='dw', dh='dh')
    val_dim = [d for d in element.vdims][0]
    style['color_mapper'] = self._get_colormapper(val_dim, element, ranges, style)

    if self.static_source:
        return {}, mapping, style

    img = element.dimension_values(2, flat=False)
    if img.dtype.kind == 'b':
        img = img.astype(np.int8)

    if type(element) is Raster:
        xvals = element.dimension_values(0, expanded=False)
        yvals = element.dimension_values(1, expanded=False)
        l, r = 0, len(xvals)
        b, t = 0, len(yvals)
        if self.invert_axes:
            img = img.T
            l, b, r, t = b, l, t, r
    else:
        l, b, r, t = element.bounds.lbrt()
        if self.invert_axes:
            img = img.T
            l, b, r, t = b, l, t, r

    if self.invert_xaxis:
        l, r = r, l
        img = img[:, ::-1]
    if self.invert_yaxis:
        img = img[::-1]
        b, t = t, b
    dh, dw = t-b, r-l

    data = dict(image=[img], x=[l], y=[b], dw=[dw], dh=[dh])
    return (data, mapping, style)
```

The image is a matrix (list of rows); `img.T` is `List.transpose`,
`img[:, ::-1]` reverses every row, `img[::-1]` reverses the row order.
The element supplies the image (already past the `dtype.kind == 'b'`
cast, which changes values but not geometry), the axis lengths used for
the `Raster` bounds, and `bounds.lbrt()` otherwise; bounds are rational.
The colormapper/style and the constant `mapping` are not modelled; the
returned `data` dict is.
-/

structure Bounds where
  l : ℚ
  b : ℚ
  r : ℚ
  t : ℚ
deriving DecidableEq

structure RasterElement (α : Type) where
  isRaster : Bool
  img : List (List α)
  xlen : Nat
  ylen : Nat
  bounds : Bounds
deriving DecidableEq

/-- The glyph data dict `dict(image=[img], x=[l], y=[b], dw=[dw], dh=[dh])`. -/
structure RasterGlyphData (α : Type) where
  image : List (List α)
  x : ℚ
  y : ℚ
  dw : ℚ
  dh : ℚ
deriving DecidableEq

/-- Lines shared verbatim by `RasterPlot.get_data` and `RGBPlot.get_data`:
the three sequential inversion steps, followed by no further change to the
image. -/
def applyAxisInversion (invert_axes invert_xaxis invert_yaxis : Bool)
    (img0 : List (List α)) (bd0 : Bounds) : List (List α) × Bounds :=
  let p1 := if invert_axes then (img0.transpose, Bounds.mk bd0.b bd0.l bd0.t bd0.r)
            else (img0, bd0)
  let p2 := if invert_xaxis then (p1.1.map List.reverse, Bounds.mk p1.2.r p1.2.b p1.2.l p1.2.t)
            else p1
  if invert_yaxis then (p2.1.reverse, Bounds.mk p2.2.l p2.2.t p2.2.r p2.2.b)
  else p2

def RasterPlot.get_data (invert_axes invert_xaxis invert_yaxis static_source : Bool)
    (element : RasterElement α) : Option (RasterGlyphData α) :=
  if static_source then none
  else
    let bd0 := if element.isRaster then Bounds.mk 0 0 element.xlen element.ylen
               else element.bounds
    let p := applyAxisInversion invert_axes invert_xaxis invert_yaxis element.img bd0
    some ⟨p.1, p.2.l, p.2.b, p.2.r - p.2.l, p.2.t - p.2.b⟩

/-!
```python
def get_data(self, element, ranges, style):          # RGBPlot
    mapping = dict(image='image', x='x', y='y', dw='dw', dh='dh')
    if self.static_source:
        return {}, mapping, style

    img = np.dstack([element.dimension_values(d, flat=False)
                     for d in element.vdims])
    if img.ndim == 3:
        if img.shape[2] == 3: # alpha channel not included
            alpha = np.ones(img.shape[:2])
            if img.dtype.name == 'uint8':
                alpha = (alpha*255).astype('uint8')
            img = np.dstack([img, alpha])
        if img.dtype.name != 'uint8':
            img = (img*255).astype(np.uint8)
        N, M, _ = img.shape
        #convert image NxM dtype=uint32
        img = img.view(dtype=np.uint32).reshape((N, M))

    # Ensure axis inversions are handled correctly
    l, b, r, t = element.bounds.lbrt()
    ... (identical inversion lines) ...
    data = dict(image=[img], x=[l], y=[b], dw=[dw], dh=[dh])
    return (data, mapping, style)
```

Channel planes are rational-valued matrices; a `uint8` plane holds
integers in `[0, 255]`.  `np.dstack` stacks the planes pixelwise (its
result always has `ndim == 3` here).  `astype(np.uint8)` truncates a
non-negative float toward zero into a byte; `view(np.uint32)` on a
little-endian machine reads the four bytes of each pixel least
significant first.  On the `uint8` path no cast runs and the bytes are
the (already integral, in-range) values themselves.
-/

def zipMatrix (f : α → β → γ) (A : List (List α)) (B : List (List β)) :
    List (List γ) :=
  List.zipWith (List.zipWith f) A B

/-- `np.dstack`: turn a list of equally shaped planes into one matrix of
pixel vectors. -/
def dstack : List (List (List α)) → List (List (List α))
  | [] => []
  | [c] => c.map (fun row => row.map (fun v => [v]))
  | c :: rest => zipMatrix List.cons c (dstack rest)

/-- `np.ones(img.shape[:2]) * v`: a constant plane shaped like `m`. -/
def onesLike (m : List (List ℚ)) (v : ℚ) : List (List ℚ) :=
  m.map (fun row => row.map (fun _ => v))

/-- `astype(np.uint8)` of a non-negative float (truncation toward zero,
reduced into a byte). -/
def toUint8 (q : ℚ) : Nat := Int.toNat ⌊q⌋ % 256

/-- Read a pixel's byte vector as one little-endian unsigned integer
(`view(dtype=np.uint32)` reads the lowest-addressed byte as least
significant). -/
def packLE (bytes : List Nat) : Nat :=
  bytes.foldr (fun b acc => b % 256 + 256 * acc) 0

/-- The `if img.ndim == 3:` block of `RGBPlot.get_data`: append the
opaque alpha plane to a three-plane image, scale a non-`uint8` image by
255 into bytes, and reinterpret each pixel as a `uint32`. -/
def toUint32Img (chans : List (List (List ℚ))) (isUint8 : Bool) :
    List (List Nat) :=
  let chans2 := if chans.length = 3 then
      chans ++ [onesLike (chans.headD []) (if isUint8 then 255 else 1)]
    else chans
  let bytes := if isUint8 then
      (dstack chans2).map (fun row => row.map (fun px => px.map toUint8))
    else
      (dstack chans2).map (fun row => row.map (fun px => px.map (fun v => toUint8 (v * 255))))
  bytes.map (fun row => row.map packLE)

def RGBPlot.get_data (invert_axes invert_xaxis invert_yaxis static_source : Bool)
    (chans : List (List (List ℚ))) (isUint8 : Bool) (bounds : Bounds) :
    Option (RasterGlyphData Nat) :=
  if static_source then none
  else
    let img := toUint32Img chans isUint8
    let p := applyAxisInversion invert_axes invert_xaxis invert_yaxis img bounds
    some ⟨p.1, p.2.l, p.2.b, p.2.r - p.2.l, p.2.t - p.2.b⟩

/-!
Spec-side descriptions of the axis-inversion convention (the claim's
words): transpose with bounds `(l, b, r, t) ↦ (b, l, t, r)` for
`invert_axes`, column reversal with `l`/`r` swapped for `invert_xaxis`,
row reversal with `b`/`t` swapped for `invert_yaxis`.
-/

def swapAxes (bd : Bounds) : Bounds := ⟨bd.b, bd.l, bd.t, bd.r⟩

def swapLR (bd : Bounds) : Bounds := ⟨bd.r, bd.b, bd.l, bd.t⟩

def swapBT (bd : Bounds) : Bounds := ⟨bd.l, bd.t, bd.r, bd.b⟩

def specInvBounds (invert_axes invert_xaxis invert_yaxis : Bool) (bd : Bounds) : Bounds :=
  (if invert_yaxis then swapBT else id)
    ((if invert_xaxis then swapLR else id)
      ((if invert_axes then swapAxes else id) bd))

def specInvImage (invert_axes invert_xaxis invert_yaxis : Bool)
    (img : List (List α)) : List (List α) :=
  (if invert_yaxis then List.reverse else id)
    ((if invert_xaxis then List.map List.reverse else id)
      ((if invert_axes then List.transpose else id) img))

/-- Pixelwise zip of three equally shaped planes. -/
def zipWith3 (f : α → β → γ → δ) : List α → List β → List γ → List δ
  | a :: as, b :: bs, c :: cs => f a b c :: zipWith3 f as bs cs
  | _, _, _ => []

def zipMatrix3 (f : α → β → γ → δ) (A : List (List α)) (B : List (List β))
    (C : List (List γ)) : List (List δ) :=
  zipWith3 (zipWith3 f) A B C

/-- Pixelwise zip of four equally shaped planes. -/
def zipWith4 (f : α → β → γ → δ → ε) :
    List α → List β → List γ → List δ → List ε
  | a :: as, b :: bs, c :: cs, d :: ds => f a b c d :: zipWith4 f as bs cs ds
  | _, _, _, _ => []

def zipMatrix4 (f : α → β → γ → δ → ε) (A : List (List α)) (B : List (List β))
    (C : List (List γ)) (D : List (List δ)) : List (List ε) :=
  zipWith4 (zipWith4 f) A B C D

/-- The byte a channel value contributes: scaled by 255 and truncated for
a float image, taken as is for a `uint8` image. -/
def channelByte (isUint8 : Bool) (v : ℚ) : Nat :=
  if isUint8 then toUint8 v else toUint8 (v * 255)

/-- The shape of a matrix: its row lengths. -/
def mshape (m : List (List α)) : List Nat := m.map List.length

/-!
## `HeatMapPlot.get_data`

```python
def get_data(self, element, ranges, style):
    x, y, z = [dimension_sanitizer(d) for d in element.dimensions(label=True)[:3]]
    if self.invert_axes: x, y = y, x
    cmapper = self._get_colormapper(element.vdims[0], element, ranges, style)
    if self.static_source:
        return {}, {'x': x, 'y': y, 'fill_color': {'field': 'zvalues', 'transform': cmapper}}, style

    aggregate = element.gridded
    xdim, ydim = aggregate.dimensions()[:2]
    xvals, yvals = (aggregate.dimension_values(x),
                    aggregate.dimension_values(y))
    zvals = aggregate.dimension_values(2, flat=False)
    if self.invert_axes:
        xdim, ydim = ydim, xdim
        zvals = zvals.T.flatten()
    else:
        zvals = zvals.T.flatten()
    if xvals.dtype.kind not in 'SU':
        xvals = [xdim.pprint_value(xv) for xv in xvals]
    if yvals.dtype.kind not in 'SU':
        yvals = [ydim.pprint_value(yv) for yv in yvals]
    data = {x: xvals, y: yvals, 'zvalues': zvals}

    if any(isinstance(t, HoverTool) for t in self.state.tools) and not self.static_source:
        for vdim in element.vdims:
            sanitized = dimension_sanitizer(vdim.name)
            data[sanitized] = ['-' if is_nan(v) else vdim.pprint_value(v)
                               for v in aggregate.dimension_values(vdim)]
    return (data, {'x': x, 'y': y, 'fill_color': ..., 'height': 1, 'width': 1}, style)
```

`dimension_sanitizer` and `is_nan` live in `core/util.py`, outside this
fragment, and are passed in as functions.  The already sanitized first
two dimension names and the prepared `xvals`/`yvals`/`zvals` columns are
taken as inputs; the `data` dict is an association list in insertion
order (every key here is fresh when the hypotheses of the theorems hold).
A value dimension is its name, its pretty printer and its values
`aggregate.dimension_values(vdim)`.
-/

structure HMVDim (α : Type) where
  name : String
  pprint : α → String
  values : List α

/-- A column of the heat map's glyph data: strings (category labels or
hover texts) or raw z values. -/
inductive HMCol (α : Type) where
  | strs (vs : List String)
  | vals (vs : List α)

def HeatMapPlot.get_data (sanitize : String → String) (isNan : α → Bool)
    (invert_axes hasHover static_source : Bool) (x y : String)
    (xvals yvals : List String) (zvals : List α) (vdims : List (HMVDim α)) :
    Option (List (String × HMCol α)) :=
  let xy := if invert_axes then (y, x) else (x, y)
  if static_source then none
  else
    let base := [(xy.1, HMCol.strs xvals), (xy.2, HMCol.strs yvals),
                 ("zvalues", HMCol.vals zvals)]
    if hasHover && !static_source then
      some (vdims.foldl (fun dat vdim =>
        dat ++ [(sanitize vdim.name,
                 HMCol.strs (vdim.values.map (fun v =>
                   if isNan v then "-" else vdim.pprint v)))]) base)
    else some base

/-!
# Theorems

Helper lemmas first, then one theorem per claim (with its witness or
counterexample where required).
-/

/-- A `find?` over columns none of which carries the sought name fails. -/
theorem find_col_eq_none (cols : List (String × List α)) (n : String)
    (h : n ∉ cols.map Prod.fst) :
    cols.find? (fun c => c.1 == n) = none := by
  rw [List.find?_eq_none]
  intro c hc hceq
  exact h (List.mem_map.mpr ⟨c, hc, by simpa using hceq⟩)

/-- Appending one element per item in a fold is mapping. -/
theorem foldl_append_eq_map (g : β → γ) (l : List β) :
    ∀ base : List γ, l.foldl (fun acc d => acc ++ [g d]) base = base ++ l.map g := by
  induction l with
  | nil => intro base; simp
  | cons d ds ih => intro base; simp [ih]

/-- C8: For every dask-backed dataset and any requested sort columns,
`DaskInterface.sort` returns the dataset's underlying dataframe unchanged
and only emits a warning that dask dataframes do not support sorting. -/
theorem claim_C8_sort_identity (columns : DDataset α) (by_ : List String) :
    (DaskInterface.sort columns by_).2 = columns.data ∧
    (DaskInterface.sort columns by_).1 = ["Dask dataframes do not support sorting"] :=
  ⟨rfl, rfl⟩

/-- C10: `DaskInterface.add_dimension` returns the data unchanged when the
dimension's name is already a column; otherwise it raises
`NotImplementedError` on non-scalar values, and for a scalar value returns
the data with the new column appended, holding the scalar in every row. -/
theorem claim_C10_add_dimension (columns : DDataset α) (dimName : String)
    (dimPos : Nat) :
    (dimName ∈ columns.data.colNames →
      ∀ values, DaskInterface.add_dimension columns dimName dimPos values = .ok columns.data) ∧
    (dimName ∉ columns.data.colNames →
      ∀ vs, DaskInterface.add_dimension columns dimName dimPos (.array vs) =
        .error "Dask dataframe does not support assigning non-scalar value.") ∧
    (dimName ∉ columns.data.colNames →
      ∀ v, DaskInterface.add_dimension columns dimName dimPos (.scalar v) =
              .ok (columns.data.assign dimName v) ∧
            (columns.data.assign dimName v).colNames = columns.data.colNames ++ [dimName] ∧
            (columns.data.assign dimName v).series dimName =
              List.replicate columns.data.nrows v) := by
  refine ⟨?_, ?_, ?_⟩
  · intro hmem values
    simp [DaskInterface.add_dimension, hmem]
  · intro hmem vs
    simp [DaskInterface.add_dimension, hmem]
  · intro hmem v
    refine ⟨by simp [DaskInterface.add_dimension, hmem], ?_, ?_⟩
    · simp [DFrame.assign, DFrame.colNames]
    · simp [DFrame.assign, DFrame.series, List.find?_append,
            find_col_eq_none columns.data.columns dimName hmem]

/-- C10 witness: adding a fresh dimension `y` with scalar value 7 to a
two-row frame appends the column `[7, 7]`. -/
theorem claim_C10_add_dimension_witness :
    DaskInterface.add_dimension (⟨["x"], [], ⟨2, [("x", [1, 2])]⟩⟩ : DDataset Int)
        "y" 0 (.scalar 7) =
      .ok ((⟨2, [("x", [1, 2])]⟩ : DFrame Int).assign "y" 7) ∧
    ((⟨2, [("x", [1, 2])]⟩ : DFrame Int).assign "y" 7).colNames =
      (⟨2, [("x", [1, 2])]⟩ : DFrame Int).colNames ++ ["y"] ∧
    ((⟨2, [("x", [1, 2])]⟩ : DFrame Int).assign "y" 7).series "y" =
      List.replicate 2 7 :=
  (claim_C10_add_dimension (⟨["x"], [], ⟨2, [("x", [1, 2])]⟩⟩ : DDataset Int)
    "y" 0).2.2 (by decide) 7

/-- C9 counterexample: on the dataframe-shaped value with one row and no
columns (`pd.DataFrame(index=[0])`, as produced e.g. by `aggregate` when
no value column is numeric), `unpack_scalar` raises `IndexError` instead
of returning the data unchanged, although the frame does not have one
column and one row. -/
theorem claim_C9_counterexample :
    DaskInterface.unpack_scalar (⟨1, []⟩ : DFrame Int) = .error "IndexError" ∧
    ¬ DaskInterface.unpack_scalar (⟨1, []⟩ : DFrame Int) = .ok (.inr ⟨1, []⟩) := by
  refine ⟨rfl, ?_⟩
  intro h
  rw [show DaskInterface.unpack_scalar (⟨1, []⟩ : DFrame Int) = .error "IndexError" from rfl] at h
  exact Except.noConfusion h

/-- C9 (amended): for every dataframe-shaped result with at least one
column (and well-formed columns), `unpack_scalar` returns the single
contained value exactly when the data has one column and one row, and
returns the data unchanged in every other case; on a columnless one-row
frame it instead raises `IndexError`. -/
theorem claim_C9_unpack_scalar [Inhabited α] (data : DFrame α)
    (hc : 1 ≤ data.columns.length)
    (hwf : ∀ c ∈ data.columns, c.2.length = data.nrows) :
    DaskInterface.unpack_scalar data =
      if data.columns.length = 1 ∧ data.nrows = 1 then
        .ok (.inl ((data.columns.headD ("", [])).2.headD default))
      else .ok (.inr data) := by
  unfold DaskInterface.unpack_scalar
  by_cases h1 : data.columns.length = 1 ∧ data.nrows = 1
  · obtain ⟨hlen, hrow⟩ := h1
    have hnot : ¬ (data.columns.length > 1 ∨ data.nrows ≠ 1) := by omega
    rw [if_neg hnot, if_pos ⟨hlen, hrow⟩]
    obtain ⟨c0, hc0⟩ : ∃ c0, data.columns = [c0] := by
      match hm : data.columns with
      | [c0] => exact ⟨c0, rfl⟩
      | [] => rw [hm] at hlen; simp at hlen
      | a :: b :: t => rw [hm] at hlen; simp at hlen
    have hlen0 : c0.2.length = 1 := by
      rw [hwf c0 (by rw [hc0]; exact List.mem_singleton.mpr rfl), hrow]
    obtain ⟨v, hv⟩ : ∃ v, c0.2 = [v] := by
      match hm : c0.2 with
      | [v] => exact ⟨v, rfl⟩
      | [] => rw [hm] at hlen0; simp at hlen0
      | a :: b :: t => rw [hm] at hlen0; simp at hlen0
    simp [DFrame.iat, hc0, hv]
  · have : data.columns.length > 1 ∨ data.nrows ≠ 1 := by omega
    rw [if_pos this, if_neg h1]

/-- C9 witness: a one-column, one-row frame unpacks to its single value. -/
theorem claim_C9_unpack_scalar_witness :
    DaskInterface.unpack_scalar (⟨1, [("a", [5])]⟩ : DFrame Int) = .ok (.inl 5) := by
  have h := claim_C9_unpack_scalar (⟨1, [("a", [5])]⟩ : DFrame Int)
    (by decide) (by decide)
  rw [h]
  rfl

/-- C1: the claim fails on the code.  Selecting `x` with the range tuple
`(0, 2)` builds two masks (`0 <= x` and `x < 2`); combining the second one
evaluates `if select_mask:` on a Series, which raises instead of
conjoining, so `select_mask` and `select` raise for every selection that
produces more than one mask — the claimed conjunction semantics
(`specSelectMask`, here `[true, true, false, false]`) is never computed.
The explicit-`selection_mask` path does restrict the frame to the mask,
and a one-mask selection still works. -/
theorem claim_C1_select_mask_raises :
    DaskInterface.select_mask
        (⟨["x"], ["y"], ⟨4, [("x", [0, 1, 2, 3]), ("y", [10, 20, 30, 40])]⟩⟩ : DDataset Int)
        [("x", SelVal.srange (some 0) (some 2))] =
      .error "truth value of a Series is ambiguous" ∧
    DaskInterface.select
        (⟨["x"], ["y"], ⟨4, [("x", [0, 1, 2, 3]), ("y", [10, 20, 30, 40])]⟩⟩ : DDataset Int)
        none [("x", SelVal.srange (some 0) (some 2))] false =
      .error "truth value of a Series is ambiguous" ∧
    specSelectMask
        (⟨["x"], ["y"], ⟨4, [("x", [0, 1, 2, 3]), ("y", [10, 20, 30, 40])]⟩⟩ : DDataset Int)
        [("x", SelVal.srange (some 0) (some 2))] = [true, true, false, false] ∧
    DaskInterface.select_mask
        (⟨["x"], ["y"], ⟨4, [("x", [0, 1, 2, 3]), ("y", [10, 20, 30, 40])]⟩⟩ : DDataset Int)
        [("x", SelVal.slit 3), ("y", SelVal.slit 40)] =
      .error "truth value of a Series is ambiguous" ∧
    DaskInterface.select
        (⟨["x"], ["y"], ⟨4, [("x", [0, 1, 2, 3]), ("y", [10, 20, 30, 40])]⟩⟩ : DDataset Int)
        (some [true, true, false, false]) [] false =
      .ok (.inl ⟨2, [("x", [0, 1]), ("y", [10, 20])]⟩) ∧
    DaskInterface.select_mask
        (⟨["x"], ["y"], ⟨4, [("x", [0, 1, 2, 3]), ("y", [10, 20, 30, 40])]⟩⟩ : DDataset Int)
        [("x", SelVal.slit 2)] = .ok (some [false, false, true, false]) :=
  ⟨rfl, rfl, rfl, rfl, rfl, rfl⟩

/-- C7: for a heat map rendered with an active hover tool and a
non-static source, `HeatMapPlot.get_data` appends to the glyph data, for
each value dimension in order, a column named by the sanitized dimension
name whose entries are `"-"` where the value is NaN and the dimension's
pretty-printed value otherwise. -/
theorem claim_C7_heatmap_hover (sanitize : String → String) (isNan : α → Bool)
    (invert_axes : Bool) (x y : String) (xvals yvals : List String)
    (zvals : List α) (vdims : List (HMVDim α)) :
    HeatMapPlot.get_data sanitize isNan invert_axes true false x y
        xvals yvals zvals vdims =
      some ([((if invert_axes then (y, x) else (x, y)).1, HMCol.strs xvals),
             ((if invert_axes then (y, x) else (x, y)).2, HMCol.strs yvals),
             ("zvalues", HMCol.vals zvals)] ++
            vdims.map (fun vdim => (sanitize vdim.name,
              HMCol.strs (vdim.values.map (fun v =>
                if isNan v then "-" else vdim.pprint v))))) := by
  unfold HeatMapPlot.get_data
  simp only [Bool.not_false, Bool.and_true, if_false, Bool.false_eq_true, ite_false]
  rw [foldl_append_eq_map (fun vdim : HMVDim α => (sanitize vdim.name,
        HMCol.strs (vdim.values.map (fun v => if isNan v then "-" else vdim.pprint v))))]
  simp

/-- C2: `RasterPlot.get_data` and `RGBPlot.get_data` apply the
axis-inversion convention to the returned glyph data: with `invert_axes`
the image is transposed and the bounds `(l, b, r, t)` become
`(b, l, t, r)`; with `invert_xaxis` the image's columns are reversed and
`l` and `r` are swapped; with `invert_yaxis` the image's rows are
reversed and `b` and `t` are swapped; the returned `dw` and `dh` equal
`r - l` and `t - b` of the final bounds. -/
theorem claim_C2_axis_inversion (invert_axes invert_xaxis invert_yaxis static_source : Bool)
    (element : RasterElement α) (chans : List (List (List ℚ))) (isUint8 : Bool)
    (bounds : Bounds) :
    (RasterPlot.get_data invert_axes invert_xaxis invert_yaxis static_source element =
      if static_source then none
      else
        let bd0 := if element.isRaster then Bounds.mk 0 0 element.xlen element.ylen
                   else element.bounds
        let fb := specInvBounds invert_axes invert_xaxis invert_yaxis bd0
        some ⟨specInvImage invert_axes invert_xaxis invert_yaxis element.img,
              fb.l, fb.b, fb.r - fb.l, fb.t - fb.b⟩) ∧
    (RGBPlot.get_data invert_axes invert_xaxis invert_yaxis static_source chans isUint8 bounds =
      if static_source then none
      else
        let fb := specInvBounds invert_axes invert_xaxis invert_yaxis bounds
        some ⟨specInvImage invert_axes invert_xaxis invert_yaxis (toUint32Img chans isUint8),
              fb.l, fb.b, fb.r - fb.l, fb.t - fb.b⟩) := by
  cases invert_axes <;> cases invert_xaxis <;> cases invert_yaxis <;>
    cases static_source <;>
    exact ⟨rfl, rfl⟩

/-- `min?` of a list is its least element. -/
theorem min_some_iff [LinearOrder α] (xs : List α) (a : α) :
    xs.min? = some a ↔ a ∈ xs ∧ ∀ b ∈ xs, a ≤ b :=
  have : Std.Antisymm (fun (x1 x2 : α) => x1 ≤ x2) := ⟨fun h h2 => le_antisymm h h2⟩
  List.min?_eq_some_iff (fun x => le_refl x) (fun x y => min_choice x y)
    (fun x y z => le_min_iff)

/-- `max?` of a list is its greatest element. -/
theorem max_some_iff [LinearOrder α] (xs : List α) (a : α) :
    xs.max? = some a ↔ a ∈ xs ∧ ∀ b ∈ xs, b ≤ a :=
  have : Std.Antisymm (fun (x1 x2 : α) => x1 ≤ x2) := ⟨fun h h2 => le_antisymm h h2⟩
  List.max?_eq_some_iff (fun x => le_refl x) (fun x y => max_choice x y)
    (fun x y z => max_le_iff)

/-- The head of a sorted list is a lower bound. -/
theorem sorted_head_le [LinearOrder α] {l : List α}
    (hs : List.Sorted (· ≤ ·) l) {h : α} (hh : l.head? = some h) :
    ∀ x ∈ l, h ≤ x := by
  match l with
  | [] => cases hh
  | a :: t =>
    obtain rfl : a = h := Option.some.inj hh
    intro x hx
    rcases List.mem_cons.mp hx with rfl | hx
    · exact le_refl x
    · exact (List.sorted_cons.mp hs).1 x hx

/-- The last element of a sorted list is an upper bound. -/
theorem sorted_le_getLast [LinearOrder α] {l : List α}
    (hs : List.Sorted (· ≤ ·) l) {g : α} (hg : l.getLast? = some g) :
    ∀ x ∈ l, x ≤ g := by
  induction l with
  | nil => cases hg
  | cons a t ih =>
    intro x hx
    cases t with
    | nil =>
      obtain rfl : a = g := Option.some.inj hg
      rcases List.mem_cons.mp hx with rfl | hx
      · exact le_refl x
      · cases hx
    | cons b t2 =>
      have hg2 : (b :: t2).getLast? = some g := by
        rwa [List.getLast?_cons_cons] at hg
      have hgm : g ∈ b :: t2 := by
        obtain ⟨ys, hys⟩ := List.getLast?_eq_some_iff.mp hg2
        rw [hys]; simp
      rcases List.mem_cons.mp hx with rfl | hx
      · exact (List.sorted_cons.mp hs).1 g hgm
      · exact ih (List.sorted_cons.mp hs).2 hg2 x hx

/-- C4: for a column with at least one non-null value, `DaskInterface.range`
returns a pair, and that pair is the minimum and maximum of the column's
non-null values — in the object-dtype branch the first and last entries
of the sorted non-null values, in the other branch the series min and
max. -/
theorem claim_C4_range [LinearOrder α] (column : DColumn α)
    (hne : column.vals.filterMap id ≠ []) :
    ∃ mn mx, DaskInterface.range column = some (mn, mx) ∧
      mn ∈ column.vals.filterMap id ∧ mx ∈ column.vals.filterMap id ∧
      ∀ v ∈ column.vals.filterMap id, mn ≤ v ∧ v ≤ mx := by
  by_cases hob : column.objectDtype = true
  · have hperm := List.perm_insertionSort (· ≤ ·) (column.vals.filterMap id)
    have hsorted := List.sorted_insertionSort (· ≤ ·) (column.vals.filterMap id)
    have hsne : List.insertionSort (· ≤ ·) (column.vals.filterMap id) ≠ [] := by
      intro h0
      apply hne
      rw [h0] at hperm
      exact (List.Perm.nil_eq hperm).symm
    obtain ⟨h0, hh⟩ : ∃ h0,
        (List.insertionSort (· ≤ ·) (column.vals.filterMap id)).head? = some h0 := by
      cases hl : List.insertionSort (· ≤ ·) (column.vals.filterMap id) with
      | nil => exact absurd hl hsne
      | cons x xs => exact ⟨x, rfl⟩
    obtain ⟨g0, hg⟩ : ∃ g0,
        (List.insertionSort (· ≤ ·) (column.vals.filterMap id)).getLast? = some g0 := by
      cases hl : (List.insertionSort (· ≤ ·) (column.vals.filterMap id)).getLast? with
      | some x => exact ⟨x, rfl⟩
      | none => exact absurd (List.getLast?_eq_none_iff.mp hl) hsne
    have hr : DaskInterface.range column = some (h0, g0) := by
      unfold DaskInterface.range
      rw [if_pos hob]
      simp only
      rw [hh, hg]
    have hmem_h0 : h0 ∈ List.insertionSort (· ≤ ·) (column.vals.filterMap id) := by
      obtain ⟨ys, hys⟩ := List.head?_eq_some_iff.mp hh
      rw [hys]; simp
    have hmem_g0 : g0 ∈ List.insertionSort (· ≤ ·) (column.vals.filterMap id) := by
      obtain ⟨ys, hys⟩ := List.getLast?_eq_some_iff.mp hg
      rw [hys]; simp
    refine ⟨h0, g0, hr, hperm.mem_iff.mp hmem_h0, hperm.mem_iff.mp hmem_g0, ?_⟩
    intro v hv
    have hvs : v ∈ List.insertionSort (· ≤ ·) (column.vals.filterMap id) :=
      hperm.mem_iff.mpr hv
    exact ⟨sorted_head_le hsorted hh v hvs, sorted_le_getLast hsorted hg v hvs⟩
  · cases hl : column.vals.filterMap id with
    | nil => exact absurd hl hne
    | cons x xs =>
      have hmn : seriesMin column.vals = some (xs.min?.elim x (min x)) := by
        unfold seriesMin
        rw [hl]
        exact List.min?_cons
      have hmx : seriesMax column.vals = some (xs.max?.elim x (max x)) := by
        unfold seriesMax
        rw [hl]
        exact List.max?_cons
      have hr : DaskInterface.range column =
          some (xs.min?.elim x (min x), xs.max?.elim x (max x)) := by
        unfold DaskInterface.range
        rw [if_neg hob, hmn, hmx]
      have hmn2 : (x :: xs).min? = some (xs.min?.elim x (min x)) := List.min?_cons
      have hmx2 : (x :: xs).max? = some (xs.max?.elim x (max x)) := List.max?_cons
      obtain ⟨hm1, hlb⟩ := (min_some_iff _ _).mp hmn2
      obtain ⟨hm2, hub⟩ := (max_some_iff _ _).mp hmx2
      exact ⟨_, _, hr, hm1, hm2, fun v hv => ⟨hlb v hv, hub v hv⟩⟩

/-- C4 witness: on the object-dtype column `[2, null, 1]` over the
integers, range returns `(1, 2)`: both endpoints are attained non-null
values and they bound the value 2. -/
theorem claim_C4_range_witness :
    (1 : ℤ) ∈ List.filterMap id [some 2, none, some 1] ∧
    (2 : ℤ) ∈ List.filterMap id [some 2, none, some 1] ∧
    ((1 : ℤ) ≤ 2 ∧ (2 : ℤ) ≤ 2) := by
  obtain ⟨mn, mx, hr, h1, h2, h3⟩ :=
    claim_C4_range (⟨true, [some 2, none, some 1]⟩ : DColumn ℤ) (by decide)
  have hc : DaskInterface.range (⟨true, [some 2, none, some 1]⟩ : DColumn ℤ) =
      some (1, 2) := by decide
  rw [hc] at hr
  have h12 := Option.some.inj hr
  have hmn : mn = 1 := (congrArg Prod.fst h12).symm
  have hmx : mx = 2 := (congrArg Prod.snd h12).symm
  subst hmn
  subst hmx
  exact ⟨h1, h2, h3 2 (by decide)⟩

/-- `unique_iterator` yields exactly the elements of its input. -/
theorem uniq_mem [DecidableEq β] (l : List β) (y : β) :
    y ∈ uniqueIterator l ↔ y ∈ l := by
  induction l using uniqueIterator.induct with
  | case1 => simp [uniqueIterator]
  | case2 x xs ih =>
    rw [uniqueIterator]
    by_cases hyx : y = x
    · subst hyx; simp
    · simp only [List.mem_cons, ih, List.mem_filter]
      constructor
      · rintro (rfl | ⟨h1, h2⟩)
        · exact Or.inl rfl
        · exact Or.inr h1
      · rintro (rfl | h1)
        · exact Or.inl rfl
        · exact Or.inr ⟨h1, by simpa using hyx⟩

/-- `unique_iterator` yields each distinct element once. -/
theorem uniq_nodup [DecidableEq β] (l : List β) :
    (uniqueIterator l).Nodup := by
  induction l using uniqueIterator.induct with
  | case1 => simp [uniqueIterator]
  | case2 x xs ih =>
    rw [uniqueIterator]
    refine List.nodup_cons.mpr ⟨?_, ih⟩
    intro hx
    have := List.mem_filter.mp ((uniq_mem _ _).mp hx)
    simp at this

/-- Removing the occurrences of `x` does not change the relative order of
the first occurrences of the other elements. -/
theorem firstIdx_filter_mono [DecidableEq β] (x : β) (xs : List β) (a b : β)
    (ha : a ≠ x) (hb : b ≠ x)
    (hlt : firstIdx (xs.filter (fun y => decide (y ≠ x))) a <
           firstIdx (xs.filter (fun y => decide (y ≠ x))) b) :
    firstIdx xs a < firstIdx xs b := by
  induction xs with
  | nil => simp [firstIdx] at hlt
  | cons y t ih =>
    by_cases hyx : y = x
    · subst hyx
      rw [List.filter_cons_of_neg (by simp)] at hlt
      have hya : ¬ y = a := fun h => ha h.symm
      have hyb : ¬ y = b := fun h => hb h.symm
      rw [firstIdx, firstIdx, if_neg hya, if_neg hyb]
      exact Nat.succ_lt_succ (ih hlt)
    · rw [List.filter_cons_of_pos (by simpa using hyx)] at hlt
      by_cases hya : y = a
      · subst hya
        rw [firstIdx, if_pos rfl]
        rw [firstIdx, if_pos rfl] at hlt
        have hyb : ¬ y = b := by
          intro h
          subst h
          rw [firstIdx, if_pos rfl] at hlt
          exact Nat.lt_irrefl 0 hlt
        rw [firstIdx, if_neg hyb]
        exact Nat.succ_pos _
      · rw [firstIdx, if_neg hya] at hlt
        by_cases hyb : y = b
        · subst hyb
          rw [firstIdx, if_pos rfl] at hlt
          exact absurd hlt (Nat.not_lt_zero _)
        · rw [firstIdx, if_neg hyb] at hlt
          rw [firstIdx, if_neg hya, firstIdx, if_neg hyb]
          exact Nat.succ_lt_succ (ih (Nat.lt_of_succ_lt_succ hlt))

/-- `unique_iterator` yields elements in order of first appearance. -/
theorem uniq_pairwise_firstIdx [DecidableEq β] (l : List β) :
    List.Pairwise (fun a b => firstIdx l a < firstIdx l b) (uniqueIterator l) := by
  induction l using uniqueIterator.induct with
  | case1 => simp [uniqueIterator]
  | case2 x xs ih =>
    rw [uniqueIterator]
    refine List.pairwise_cons.mpr ⟨?_, ?_⟩
    · intro b hb
      have hbf := List.mem_filter.mp ((uniq_mem _ _).mp hb)
      have hbx : ¬ x = b := by
        intro h
        subst h
        simp at hbf
      rw [firstIdx, if_pos rfl, firstIdx, if_neg hbx]
      exact Nat.succ_pos _
    · refine List.Pairwise.imp_of_mem ?_ ih
      intro a b hia hib hab
      have haf := List.mem_filter.mp ((uniq_mem _ _).mp hia)
      have hbf := List.mem_filter.mp ((uniq_mem _ _).mp hib)
      have hax : ¬ x = a := by intro h; subst h; simp at haf
      have hbx : ¬ x = b := by intro h; subst h; simp at hbf
      rw [firstIdx, if_neg hax, firstIdx, if_neg hbx]
      exact Nat.succ_lt_succ
        (firstIdx_filter_mono x xs a b (by simpa using haf.2) (by simpa using hbf.2) hab)

/-- A `filterMap` whose function drops on a test and otherwise maps is a
filter followed by a map. -/
theorem filterMap_guard (p : β → Bool) (f : β → γ) (l : List β) :
    l.filterMap (fun c => if p c then none else some (f c)) =
      (l.filter (fun c => !(p c))).map f := by
  induction l with
  | nil => simp
  | cons c t ih =>
    by_cases hp : p c = true
    · simp [hp, ih]
    · simp only [Bool.not_eq_true] at hp
      simp [hp, ih]

/-- C3: for a non-empty list of grouping dimensions (with an `NdMapping`
container and an `Element` group type), `DaskInterface.groupby` returns a
container with exactly one group per distinct coordinate tuple of the
grouping columns — every non-NaN coordinate appearing in the data occurs,
nothing else occurs, without duplicates, ordered by first appearance in
the data; each group holds exactly the rows carrying its coordinate; each
group's key dimensions are the dataset's key dimensions not grouped over;
and the container's key dimensions are the grouping dimensions. -/
theorem claim_C3_groupby (columns : DDataset Val) (dimensions : List String)
    (containerIsNdMapping groupIsElement : Bool)
    (hne : dimensions ≠ []) (hc : containerIsNdMapping = true)
    (he : groupIsElement = true) :
    (∀ co ∈ (List.range columns.data.nrows).map (coordRow columns.data dimensions),
       co.any Val.isFloatNaN = false →
       co ∈ (DaskInterface.groupby columns dimensions containerIsNdMapping
              groupIsElement).entries.map Prod.fst) ∧
    (∀ co ∈ (DaskInterface.groupby columns dimensions containerIsNdMapping
              groupIsElement).entries.map Prod.fst,
       co ∈ (List.range columns.data.nrows).map (coordRow columns.data dimensions) ∧
       co.any Val.isFloatNaN = false) ∧
    ((DaskInterface.groupby columns dimensions containerIsNdMapping
       groupIsElement).entries.map Prod.fst).Nodup ∧
    List.Pairwise
      (fun a b =>
        firstIdx ((List.range columns.data.nrows).map (coordRow columns.data dimensions)) a <
        firstIdx ((List.range columns.data.nrows).map (coordRow columns.data dimensions)) b)
      ((DaskInterface.groupby columns dimensions containerIsNdMapping
         groupIsElement).entries.map Prod.fst) ∧
    (DaskInterface.groupby columns dimensions containerIsNdMapping
      groupIsElement).entries.map (fun p => p.2.data) =
      ((DaskInterface.groupby columns dimensions containerIsNdMapping
         groupIsElement).entries.map Prod.fst).map
        (fun co => columns.data.filterMask (coordMask columns.data dimensions co)) ∧
    (DaskInterface.groupby columns dimensions containerIsNdMapping
      groupIsElement).entries.map (fun p => p.2.kdims) =
      ((DaskInterface.groupby columns dimensions containerIsNdMapping
         groupIsElement).entries.map Prod.fst).map
        (fun _ => some (columns.kdims.filter (fun k => decide (k ∉ dimensions)))) ∧
    (DaskInterface.groupby columns dimensions containerIsNdMapping
      groupIsElement).kdims = some dimensions := by
  subst hc he
  have hentries :
      (DaskInterface.groupby columns dimensions true true).entries =
        (((uniqueIterator ((List.range columns.data.nrows).map
            (coordRow columns.data dimensions))).filter
            (fun co => !(co.any Val.isFloatNaN))).map
          (fun co => (co, (⟨some (columns.kdims.filter (fun k => decide (k ∉ dimensions))),
            columns.data.filterMask (coordMask columns.data dimensions co)⟩ : DGroup)))) := by
    unfold DaskInterface.groupby
    simp only [if_pos]
    exact filterMap_guard (fun co => co.any Val.isFloatNaN)
      (fun co => (co, (⟨some (columns.kdims.filter (fun k => decide (k ∉ dimensions))),
        columns.data.filterMask (coordMask columns.data dimensions co)⟩ : DGroup)))
      (uniqueIterator ((List.range columns.data.nrows).map (coordRow columns.data dimensions)))
  have hfst :
      (DaskInterface.groupby columns dimensions true true).entries.map Prod.fst =
        ((uniqueIterator ((List.range columns.data.nrows).map
          (coordRow columns.data dimensions))).filter
          (fun co => !(co.any Val.isFloatNaN))) := by
    rw [hentries, List.map_map]
    simp [Function.comp_def]
  refine ⟨?_, ?_, ?_, ?_, ?_, ?_, ?_⟩
  · intro co hin hnan
    rw [hfst]
    exact List.mem_filter.mpr ⟨(uniq_mem _ _).mpr hin, by simp [hnan]⟩
  · intro co hin
    rw [hfst] at hin
    have h2 := List.mem_filter.mp hin
    exact ⟨(uniq_mem _ _).mp h2.1, by simpa using h2.2⟩
  · rw [hfst]
    exact (uniq_nodup _).filter _
  · rw [hfst]
    exact (uniq_pairwise_firstIdx _).sublist (List.filter_sublist _)
  · rw [hfst, hentries, List.map_map]
    simp [Function.comp_def]
  · rw [hfst, hentries, List.map_map]
    simp [Function.comp_def]
  · unfold DaskInterface.groupby
    simp

/-- C3 witness: grouping the frame with columns `a = [1, 1, NaN, 2]`,
`b = [10, 20, 30, 40]` on dimension `a` yields the groups for
coordinates `[1]` and `[2]` in order of first appearance, skipping the
NaN row; the `1`-group holds rows 0 and 1, and each group's key
dimensions are the remaining key dimension `b`. -/
theorem claim_C3_groupby_witness :
    ([Val.vInt 2] ∈ (DaskInterface.groupby
        ⟨["a", "b"], [],
         ⟨4, [("a", [Val.vInt 1, Val.vInt 1, Val.vNaN, Val.vInt 2]),
              ("b", [Val.vInt 10, Val.vInt 20, Val.vInt 30, Val.vInt 40])]⟩⟩
        ["a"] true true).entries.map Prod.fst) ∧
    (((DaskInterface.groupby
        ⟨["a", "b"], [],
         ⟨4, [("a", [Val.vInt 1, Val.vInt 1, Val.vNaN, Val.vInt 2]),
              ("b", [Val.vInt 10, Val.vInt 20, Val.vInt 30, Val.vInt 40])]⟩⟩
        ["a"] true true).entries.map Prod.fst).Nodup) ∧
    ((DaskInterface.groupby
        ⟨["a", "b"], [],
         ⟨4, [("a", [Val.vInt 1, Val.vInt 1, Val.vNaN, Val.vInt 2]),
              ("b", [Val.vInt 10, Val.vInt 20, Val.vInt 30, Val.vInt 40])]⟩⟩
        ["a"] true true).kdims = some ["a"]) := by
  have h := claim_C3_groupby
    ⟨["a", "b"], [],
     ⟨4, [("a", [Val.vInt 1, Val.vInt 1, Val.vNaN, Val.vInt 2]),
          ("b", [Val.vInt 10, Val.vInt 20, Val.vInt 30, Val.vInt 40])]⟩⟩
    ["a"] true true (by decide) rfl rfl
  exact ⟨h.1 [Val.vInt 2] (by decide) (by decide), h.2.2.1, h.2.2.2.2.2.2⟩

/-- A stacked pixel row packed bytewise equals a four-way pixel zip. -/
theorem row_stack_pack (f : ℚ → Nat) :
    ∀ (ra rb rc rd : List ℚ),
    (List.zipWith List.cons ra (List.zipWith List.cons rb (List.zipWith List.cons rc
        (rd.map (fun v => [v]))))).map (fun px => packLE (px.map f)) =
      zipWith4 (fun x y z w => packLE [f x, f y, f z, f w]) ra rb rc rd := by
  intro ra
  induction ra with
  | nil => intro rb rc rd; simp [zipWith4]
  | cons x xs ih =>
    intro rb rc rd
    cases rb with
    | nil => simp [zipWith4]
    | cons y ys =>
      cases rc with
      | nil => simp [zipWith4]
      | cons z zs =>
        cases rd with
        | nil => simp [zipWith4]
        | cons w ws =>
          simp only [List.map_cons, List.zipWith_cons_cons, zipWith4]
          exact congrArg _ (ih ys zs ws)

/-- Matrix version of `row_stack_pack`. -/
theorem mat_stack_pack (f : ℚ → Nat) :
    ∀ (A B C D : List (List ℚ)),
    (zipMatrix List.cons A (zipMatrix List.cons B (zipMatrix List.cons C
        (D.map (fun row => row.map (fun v => [v])))))).map
      (fun row => row.map (fun px => packLE (px.map f))) =
      zipMatrix4 (fun x y z w => packLE [f x, f y, f z, f w]) A B C D := by
  intro A
  induction A with
  | nil => intro B C D; simp [zipMatrix, zipMatrix4, zipWith4]
  | cons ra A2 ih =>
    intro B C D
    cases B with
    | nil => simp [zipMatrix, zipMatrix4, zipWith4]
    | cons rb B2 =>
      cases C with
      | nil => simp [zipMatrix, zipMatrix4, zipWith4]
      | cons rc C2 =>
        cases D with
        | nil => simp [zipMatrix, zipMatrix4, zipWith4]
        | cons rd D2 =>
          simp only [zipMatrix, zipMatrix4, List.map_cons, List.zipWith_cons_cons, zipWith4]
          exact congrArg₂ List.cons (row_stack_pack f ra rb rc rd) (ih B2 C2 D2)

/-- A four-way zip whose last input is a map of the first collapses to a
three-way zip. -/
theorem zipWith4_map_last (h : α → β → γ → δ → ε) (m : α → δ) :
    ∀ (as : List α) (bs : List β) (cs : List γ),
    zipWith4 h as bs cs (as.map m) =
      zipWith3 (fun x y z => h x y z (m x)) as bs cs := by
  intro as
  induction as with
  | nil => intro bs cs; simp [zipWith4, zipWith3]
  | cons x xs ih =>
    intro bs cs
    cases bs with
    | nil => simp [zipWith4, zipWith3]
    | cons y ys =>
      cases cs with
      | nil => simp [zipWith4, zipWith3]
      | cons z zs =>
        simp only [List.map_cons, zipWith4, zipWith3]
        exact congrArg _ (ih ys zs)

/-- Matrix version: a four-plane zip whose last plane is constant over the
first plane's shape collapses to a three-plane zip. -/
theorem zipMatrix4_const_last (g : ℚ → ℚ → ℚ → ℚ → δ) (v : ℚ) :
    ∀ (A B C : List (List ℚ)),
    zipMatrix4 g A B C (A.map (fun row => row.map (fun _ => v))) =
      zipMatrix3 (fun x y z => g x y z v) A B C := by
  intro A
  induction A with
  | nil => intro B C; simp [zipMatrix4, zipMatrix3, zipWith4, zipWith3]
  | cons ra A2 ih =>
    intro B C
    cases B with
    | nil => simp [zipMatrix4, zipMatrix3, zipWith4, zipWith3]
    | cons rb B2 =>
      cases C with
      | nil => simp [zipMatrix4, zipMatrix3, zipWith4, zipWith3]
      | cons rc C2 =>
        simp only [zipMatrix4, zipMatrix3, List.map_cons, zipWith4, zipWith3]
        exact congrArg₂ List.cons (zipWith4_map_last g (fun _ => v) ra rb rc) (ih B2 C2)

theorem length_zipWith3 (f : α → β → γ → δ) :
    ∀ (as : List α) (bs : List β) (cs : List γ),
    (zipWith3 f as bs cs).length = min as.length (min bs.length cs.length) := by
  intro as
  induction as with
  | nil => intro bs cs; simp [zipWith3]
  | cons x xs ih =>
    intro bs cs
    cases bs with
    | nil => simp [zipWith3]
    | cons y ys =>
      cases cs with
      | nil => simp [zipWith3]
      | cons z zs =>
        simp only [zipWith3, List.length_cons, ih]
        omega

/-- Equally shaped planes zip to the common shape. -/
theorem mshape_zipMatrix3 (f : α → α → α → δ) :
    ∀ (A B C : List (List α)), mshape B = mshape A → mshape C = mshape A →
    mshape (zipMatrix3 f A B C) = mshape A := by
  intro A
  induction A with
  | nil =>
    intro B C hB hC
    have : B = [] := by simpa [mshape] using congrArg List.length hB
    have hc2 : C = [] := by simpa [mshape] using congrArg List.length hC
    subst this; subst hc2; rfl
  | cons ra A2 ih =>
    intro B C hB hC
    cases B with
    | nil => simp [mshape] at hB
    | cons rb B2 =>
      cases C with
      | nil => simp [mshape] at hC
      | cons rc C2 =>
        simp only [mshape, List.map_cons, List.cons.injEq] at hB hC
        simp only [zipMatrix3, zipWith3, mshape, List.map_cons, List.cons.injEq]
        constructor
        · rw [length_zipWith3, hB.1, hC.1]; omega
        · have := ih B2 C2 hB.2 hC.2
          simpa [mshape] using this

theorem mem_zipWith3 (f : α → β → γ → δ) :
    ∀ (as : List α) (bs : List β) (cs : List γ) (u : δ),
    u ∈ zipWith3 f as bs cs → ∃ x y z, u = f x y z := by
  intro as
  induction as with
  | nil => intro bs cs u hu; simp [zipWith3] at hu
  | cons x xs ih =>
    intro bs cs u hu
    cases bs with
    | nil => simp [zipWith3] at hu
    | cons y ys =>
      cases cs with
      | nil => simp [zipWith3] at hu
      | cons z zs =>
        rcases List.mem_cons.mp hu with rfl | hu2
        · exact ⟨x, y, z, rfl⟩
        · exact ih ys zs u hu2

theorem mem_zipWith4 (f : α → β → γ → δ → ε) :
    ∀ (as : List α) (bs : List β) (cs : List γ) (ds : List δ) (u : ε),
    u ∈ zipWith4 f as bs cs ds → ∃ x y z w, u = f x y z w := by
  intro as
  induction as with
  | nil => intro bs cs ds u hu; simp [zipWith4] at hu
  | cons x xs ih =>
    intro bs cs ds u hu
    cases bs with
    | nil => simp [zipWith4] at hu
    | cons y ys =>
      cases cs with
      | nil => simp [zipWith4] at hu
      | cons z zs =>
        cases ds with
        | nil => simp [zipWith4] at hu
        | cons w ws =>
          rcases List.mem_cons.mp hu with rfl | hu2
          · exact ⟨x, y, z, w, rfl⟩
          · exact ih ys zs ws u hu2

/-- A four-byte little-endian word is below `2^32`. -/
theorem packLE4_lt (b0 b1 b2 b3 : Nat) : packLE [b0, b1, b2, b3] < 2 ^ 32 := by
  unfold packLE
  simp [List.foldr]
  omega

/-- The high byte of a four-byte word with alpha 255 is 255. -/
theorem packLE4_alpha (b0 b1 b2 : Nat) : packLE [b0, b1, b2, 255] / 2 ^ 24 = 255 := by
  unfold packLE
  simp [List.foldr]
  omega

/-- The three-channel packing equation: the packed image is the pixelwise
little-endian word of the three channel bytes and a fully opaque alpha. -/
theorem toUint32Img_three (r g b : List (List ℚ)) (isUint8 : Bool) :
    toUint32Img [r, g, b] isUint8 =
      zipMatrix3 (fun x y z => packLE [channelByte isUint8 x, channelByte isUint8 y,
        channelByte isUint8 z, 255]) r g b := by
  cases isUint8 with
  | false =>
    have h1 : toUint32Img [r, g, b] false =
        ((dstack [r, g, b, onesLike r 1]).map
          (fun row => row.map (fun px => px.map (fun v => toUint8 (v * 255))))).map
          (fun row => row.map packLE) := rfl
    rw [h1, List.map_map]
    simp only [Function.comp_def, List.map_map]
    have h2 : dstack [r, g, b, onesLike r 1] =
        zipMatrix List.cons r (zipMatrix List.cons g (zipMatrix List.cons b
          ((onesLike r 1).map (fun row => row.map (fun v => [v]))))) := by
      simp [dstack]
    rw [h2]
    have h3 := mat_stack_pack (fun v => toUint8 (v * 255)) r g b (onesLike r 1)
    simp only [List.map_map, Function.comp_def] at h3
    rw [h3]
    have h4 : onesLike r 1 = r.map (fun row => row.map (fun _ => (1 : ℚ))) := rfl
    rw [h4, zipMatrix4_const_last]
    simp only [channelByte, Bool.false_eq_true, if_false]
    norm_num [toUint8]
    have h6 : Int.toNat 255 % 256 = 255 := by decide
    rw [h6]
  | true =>
    have h1 : toUint32Img [r, g, b] true =
        ((dstack [r, g, b, onesLike r 255]).map
          (fun row => row.map (fun px => px.map toUint8))).map
          (fun row => row.map packLE) := rfl
    rw [h1, List.map_map]
    simp only [Function.comp_def, List.map_map]
    have h2 : dstack [r, g, b, onesLike r 255] =
        zipMatrix List.cons r (zipMatrix List.cons g (zipMatrix List.cons b
          ((onesLike r 255).map (fun row => row.map (fun v => [v]))))) := by
      simp [dstack]
    rw [h2]
    have h3 := mat_stack_pack toUint8 r g b (onesLike r 255)
    simp only [List.map_map, Function.comp_def] at h3
    rw [h3]
    have h4 : onesLike r 255 = r.map (fun row => row.map (fun _ => (255 : ℚ))) := rfl
    rw [h4, zipMatrix4_const_last]
    simp only [channelByte, if_true]
    have h5 : toUint8 255 = 255 := by norm_num [toUint8]; decide
    rw [h5]

/-- The four-channel packing equation: all four channel planes supply
their own bytes. -/
theorem toUint32Img_four (r g b a : List (List ℚ)) (isUint8 : Bool) :
    toUint32Img [r, g, b, a] isUint8 =
      zipMatrix4 (fun x y z w => packLE [channelByte isUint8 x, channelByte isUint8 y,
        channelByte isUint8 z, channelByte isUint8 w]) r g b a := by
  cases isUint8 with
  | false =>
    have h1 : toUint32Img [r, g, b, a] false =
        ((dstack [r, g, b, a]).map
          (fun row => row.map (fun px => px.map (fun v => toUint8 (v * 255))))).map
          (fun row => row.map packLE) := rfl
    rw [h1, List.map_map]
    simp only [Function.comp_def, List.map_map]
    have h2 : dstack [r, g, b, a] =
        zipMatrix List.cons r (zipMatrix List.cons g (zipMatrix List.cons b
          (a.map (fun row => row.map (fun v => [v]))))) := by
      simp [dstack]
    rw [h2]
    have h3 := mat_stack_pack (fun v => toUint8 (v * 255)) r g b a
    simp only [List.map_map, Function.comp_def] at h3
    rw [h3]
    simp only [channelByte, Bool.false_eq_true, if_false]
  | true =>
    have h1 : toUint32Img [r, g, b, a] true =
        ((dstack [r, g, b, a]).map
          (fun row => row.map (fun px => px.map toUint8))).map
          (fun row => row.map packLE) := rfl
    rw [h1, List.map_map]
    simp only [Function.comp_def, List.map_map]
    have h2 : dstack [r, g, b, a] =
        zipMatrix List.cons r (zipMatrix List.cons g (zipMatrix List.cons b
          (a.map (fun row => row.map (fun v => [v]))))) := by
      simp [dstack]
    rw [h2]
    have h3 := mat_stack_pack toUint8 r g b a
    simp only [List.map_map, Function.comp_def] at h3
    rw [h3]
    simp only [channelByte, if_true]

/-- C6: `RGBPlot.get_data` packs the stacked channel values into an
N x M array of 32-bit unsigned integers: a three-channel image first
gains a fully opaque alpha channel (byte 255), an image whose dtype is
not uint8 contributes bytes scaled by 255 and truncated to uint8 while a
uint8 image contributes its bytes as is (`channelByte`), each pixel is
reinterpreted as one little-endian 32-bit word below `2^32`, and the
packed image has the channel plane's N x M shape. -/
theorem claim_C6_rgb_packing (r g b a : List (List ℚ)) (isUint8 : Bool)
    (hg : mshape g = mshape r) (hb : mshape b = mshape r) :
    toUint32Img [r, g, b] isUint8 =
      zipMatrix3 (fun x y z => packLE [channelByte isUint8 x, channelByte isUint8 y,
        channelByte isUint8 z, 255]) r g b ∧
    toUint32Img [r, g, b, a] isUint8 =
      zipMatrix4 (fun x y z w => packLE [channelByte isUint8 x, channelByte isUint8 y,
        channelByte isUint8 z, channelByte isUint8 w]) r g b a ∧
    mshape (toUint32Img [r, g, b] isUint8) = mshape r ∧
    (∀ row ∈ toUint32Img [r, g, b] isUint8, ∀ u ∈ row, u < 2 ^ 32 ∧ u / 2 ^ 24 = 255) ∧
    (∀ row ∈ toUint32Img [r, g, b, a] isUint8, ∀ u ∈ row, u < 2 ^ 32) := by
  refine ⟨toUint32Img_three r g b isUint8, toUint32Img_four r g b a isUint8, ?_, ?_, ?_⟩
  · rw [toUint32Img_three]
    exact mshape_zipMatrix3 _ r g b hg hb
  · intro row hrow u hu
    rw [toUint32Img_three] at hrow
    obtain ⟨ra, rb, rc, hroweq⟩ := mem_zipWith3 _ r g b row hrow
    subst hroweq
    obtain ⟨x, y, z, hueq⟩ := mem_zipWith3 _ ra rb rc u hu
    subst hueq
    exact ⟨packLE4_lt _ _ _ _, packLE4_alpha _ _ _⟩
  · intro row hrow u hu
    rw [toUint32Img_four] at hrow
    obtain ⟨ra, rb, rc, rd, hroweq⟩ := mem_zipWith4 _ r g b a row hrow
    subst hroweq
    obtain ⟨x, y, z, w, hueq⟩ := mem_zipWith4 _ ra rb rc rd u hu
    subst hueq
    exact packLE4_lt _ _ _ _

/-- C6 witness: packing the float image with a single red pixel gives the
single word 0xFF0000FF (opaque alpha, red byte 255), and the packed image
keeps the 1 x 1 shape. -/
theorem claim_C6_rgb_packing_witness :
    toUint32Img [[[1]], [[0]], [[0]]] false = [[4278190335]] ∧
    mshape (toUint32Img [[[1]], [[0]], [[0]]] false) = mshape [[(1 : ℚ)]] := by
  have h := claim_C6_rgb_packing [[1]] [[0]] [[0]] [[0]] false rfl rfl
  constructor
  · rw [h.1]
    show [[packLE [channelByte false 1, channelByte false 0, channelByte false 0, 255]]] =
      [[4278190335]]
    norm_num [channelByte, toUint8, packLE]
    decide
  · exact h.2.2.1

/-- C5: `DaskInterface.aggregate` restricts aggregation to the numeric
(integer, unsigned, float, complex) value columns of the dataset — its
`reindexed` frame selects the matched key columns plus exactly those —
and with an empty list of dimensions and an aggregation function whose
name is not one of `amin`, `amax`, `mean`, `std`, `sum`, `var`, it raises
`NotImplementedError`. -/
theorem claim_C5_aggregate (columns : AggDataset) (dimensions : List String)
    (funcName : Option String) :
    (∀ o, DaskInterface.aggregate columns dimensions funcName = .ok o →
      o.valueCols = specNumericCols columns ∧
      o.keyCols = columns.kdims.filter (fun d => decide (d ∈ dimensions))) ∧
    (dimensions = [] → specIsInbuilt funcName = false →
      DaskInterface.aggregate columns dimensions funcName =
        .error "NotImplementedError") := by
  have hcols : ((columns.dtypes.filter (fun c =>
      c.2 ∈ (['i', 'u', 'f', 'c'] : List Char) && decide (c.1 ∈ columns.vdims))).map Prod.fst)
      = specNumericCols columns := by
    unfold specNumericCols
    congr 1
    apply List.filter_congr
    intro c hc
    simp [List.mem_cons]
  constructor
  · intro o hok
    unfold DaskInterface.aggregate at hok
    by_cases hd : dimensions.length ≠ 0
    · rw [if_pos hd] at hok
      cases hfn : (funcName.bind (fun n => (inbuilts.find? (fun p => p.1 == n)).map Prod.snd)) with
      | some how =>
        rw [hfn] at hok
        have ho := (Except.ok.inj hok).symm
        subst ho
        exact ⟨hcols, rfl⟩
      | none =>
        rw [hfn] at hok
        have ho := (Except.ok.inj hok).symm
        subst ho
        exact ⟨hcols, rfl⟩
    · rw [if_neg hd] at hok
      cases hfn : (funcName.bind (fun n => (inbuilts.find? (fun p => p.1 == n)).map Prod.snd)) with
      | some how =>
        rw [hfn] at hok
        have ho := (Except.ok.inj hok).symm
        subst ho
        exact ⟨hcols, rfl⟩
      | none => rw [hfn] at hok; cases hok
  · intro hdim hfn
    unfold DaskInterface.aggregate
    rw [if_neg (by rw [hdim]; simp)]
    have hbind : funcName.bind (fun n => (inbuilts.find? (fun p => p.1 == n)).map Prod.snd) = none := by
      cases funcName with
      | none => rfl
      | some n =>
        have hn : ¬ n ∈ ["amin", "amax", "mean", "std", "sum", "var"] := by
          simpa [specIsInbuilt] using hfn
        have hfind : inbuilts.find? (fun p => p.1 == n) = none := by
          rw [List.find?_eq_none]
          intro p hp hpn
          have hpe : p.1 = n := by simpa using hpn
          apply hn
          rw [← hpe]
          fin_cases hp <;> decide
        simp [hfind]
    rw [hbind]

/-- C5 witness: with dtypes `x:i, v:f, s:O`, kdims `[x]`, vdims `[v, s]`:
aggregating with no dimensions and `median` raises, and grouping on `x`
with `amin` selects key column `x` and exactly the numeric value column
`v` (the object-dtype `s` is dropped). -/
theorem claim_C5_aggregate_witness :
    DaskInterface.aggregate ⟨[("x", 'i'), ("v", 'f'), ("s", 'O')], ["x"], ["v", "s"]⟩ []
        (some "median") = .error "NotImplementedError" ∧
    ((⟨true, ["x"], ["v"], "min"⟩ : AggOutcome).valueCols =
        specNumericCols ⟨[("x", 'i'), ("v", 'f'), ("s", 'O')], ["x"], ["v", "s"]⟩ ∧
     (⟨true, ["x"], ["v"], "min"⟩ : AggOutcome).keyCols =
        (["x"] : List String).filter (fun d => decide (d ∈ (["x"] : List String)))) :=
  ⟨(claim_C5_aggregate ⟨[("x", 'i'), ("v", 'f'), ("s", 'O')], ["x"], ["v", "s"]⟩ []
      (some "median")).2 rfl (by decide),
   (claim_C5_aggregate ⟨[("x", 'i'), ("v", 'f'), ("s", 'O')], ["x"], ["v", "s"]⟩ ["x"]
      (some "amin")).1 ⟨true, ["x"], ["v"], "min"⟩ rfl⟩
